import Mathlib

/-!
Verification of the record-store specification against the sources
`src/Wallet/wallet-2.py` (class `PersonalWallet`) and `src/panel2.py`
(class `TaskPanel`).

Python `Decimal` values are embedded as rationals (`ℚ`): `Decimal`
arithmetic on the monetary magnitudes appearing here (additions,
subtractions and comparisons of values far below 10^28) is exact, and the
context rounding of `Decimal` division/multiplication (28 significant
digits, round-half-even) is modelled explicitly by `decDiv28`/`decMul28`.
Python `float` values are embedded as the rationals exactly representable
in IEEE-754 binary64; the conversion performed by `float(...)` and by each
float addition is modelled by `fl` (round to 53 significant bits,
round-half-even, normal range).  Logarithm helpers are written with
explicit fuel so that every definition evaluates inside the kernel.
-/

set_option maxRecDepth 100000

set_option allowUnsafeReducibility true

attribute [local semireducible] Rat.add Rat.mul Rat.sub Rat.inv

/-- Round a rational to the nearest integer, ties to even (the rounding
used both by IEEE-754 binary64 arithmetic and by Python `Decimal`
contexts, `ROUND_HALF_EVEN`). -/
def rhe (q : ℚ) : ℤ :=
  if Int.fract q = 1 / 2 then (if ⌊q⌋ % 2 = 0 then ⌊q⌋ else ⌊q⌋ + 1) else round q

/-- Fuel-driven floor logarithm on naturals: `flogF b f n` is `⌊log_b n⌋`
provided `f ≥ n` and `b ≥ 2`. -/
def flogF (b : ℕ) : ℕ → ℕ → ℕ
  | 0, _ => 0
  | f + 1, n => if b ≤ n then flogF b f (n / b) + 1 else 0

/-- Floor logarithm `⌊log_b n⌋` for `b ≥ 2`, `n ≥ 1` (0 otherwise). -/
def natFlog (b n : ℕ) : ℕ := flogF b n n

/-- Ceiling logarithm `⌈log_b n⌉` for `b ≥ 2`, `n ≥ 1`. -/
def natClog (b n : ℕ) : ℕ := if n ≤ 1 then 0 else natFlog b (n - 1) + 1

/-- Floor logarithm of a positive rational, matching `Int.log` but
evaluable by the kernel. -/
def qflog (b : ℕ) (q : ℚ) : ℤ :=
  if 1 ≤ q then (natFlog b ⌊q⌋.toNat : ℤ) else -(natClog b ⌈q⁻¹⌉.toNat : ℤ)

/-- Round `q` to the grid of integer multiples of `g`, ties to even. -/
def gridRound (q g : ℚ) : ℚ := (rhe (q / g) : ℚ) * g

/-- Rounding performed by `float(...)` and by each binary64 arithmetic
operation: round to 53 significant bits, ties to even (normal range). -/
def fl (q : ℚ) : ℚ := if q = 0 then 0 else gridRound q ((2 : ℚ) ^ (qflog 2 |q| - 52))

/-- Rounding of the default Python `Decimal` context: 28 significant
decimal digits, ties to even. -/
def roundSig28 (q : ℚ) : ℚ :=
  if q = 0 then 0 else gridRound q ((10 : ℚ) ^ (qflog 10 |q| - 27))

/-- Division in the default Python `Decimal` context. -/
def decDiv28 (a b : ℚ) : ℚ := roundSig28 (a / b)

/-- Multiplication in the default Python `Decimal` context. -/
def decMul28 (a b : ℚ) : ℚ := roundSig28 (a * b)

/-- Fuel-driven base-10 digit list (least significant first); the digit
content of the decimal string of `n` when `f ≥ n`. -/
def digitsF : ℕ → ℕ → List ℕ
  | 0, _ => []
  | f + 1, n => if n = 0 then [] else n % 10 :: digitsF f (n / 10)

/-- Base-10 digits of `n`, least significant first (`[]` encodes the
single character "0"). -/
def decDigits (n : ℕ) : List ℕ := digitsF n n

/-- Reassemble a natural number from its base-10 digit list (the value a
decimal-string parser recovers). -/
def undigits (l : List ℕ) : ℕ := l.foldr (fun d acc => d + 10 * acc) 0

/-- One entry of `PersonalWallet.transactions` (src/Wallet/wallet-2.py,
lines 80–88).  The formatted `'amount'` string `"±$X.XX"` is represented
by `amountCents` (the digit content `X.XX` in cents, produced by the
2-decimal formatting of the entered amount) together with `isIncome`
(the sign character, equivalently the `'type'` field `"Income"`/
`"Expense"`).  The `'date'` string is represented by its `"YYYY-MM"`
prefix `month` (encoded as a number, order-isomorphic to the
lexicographic order on the zero-padded strings); claims about this code
never inspect the day/time part.  `rawAmount` embeds the stored
`'raw_amount': float(amount)`. -/
structure Transaction where
  id : ℕ
  amountCents : ℕ
  isIncome : Bool
  category : String
  description : String
  month : ℕ
  rawAmount : ℚ
deriving DecidableEq

/-- In-memory state of `PersonalWallet`: the `transactions` list and the
`Decimal` fields `balance` and `budget`. -/
structure WalletState where
  transactions : List Transaction
  balance : ℚ
  budget : ℚ
deriving DecidableEq

/-- Fresh state produced by `__init__`/`load_data` when no data file
exists (lines 44–47): zero balance, zero budget, no transactions. -/
def emptyWallet : WalletState := ⟨[], 0, 0⟩

/-- Embeds `PersonalWallet.add_transaction` (lines 63–97).  Returns the
new state together with the `(success, message)` pair returned by the
Python method; on any `ValueError` the state is unchanged.  The stored
`'amount'` string is the entered amount formatted to two decimals
(round-half-even), recorded here in cents. -/
def addTransaction (s : WalletState) (amount : ℚ) (transType category description : String)
    (month : ℕ) : WalletState × Bool × String :=
  if amount ≤ 0 then (s, false, "Amount must be greater than 0")
  else if transType = "income" then
    ({ transactions := s.transactions ++
        [{ id := s.transactions.length + 1, amountCents := (rhe (amount * 100)).toNat,
           isIncome := true, category := category,
           description := if description = "" then "No description" else description,
           month := month, rawAmount := fl amount }],
       balance := s.balance + amount, budget := s.budget }, true, "Transaction added successfully")
  else if transType = "expense" then
    if s.balance < amount then (s, false, "Insufficient balance for this expense")
    else
      ({ transactions := s.transactions ++
          [{ id := s.transactions.length + 1, amountCents := (rhe (amount * 100)).toNat,
             isIncome := false, category := category,
             description := if description = "" then "No description" else description,
             month := month, rawAmount := fl amount }],
         balance := s.balance - amount, budget := s.budget }, true, "Transaction added successfully")
  else (s, false, "Invalid transaction type")

/-- Embeds `PersonalWallet.delete_transaction` (lines 107–125): find the
first transaction with the given id (or fail with "Transaction not
found"), reverse its effect on the balance using the value re-parsed from
the formatted amount string (`$`, `+`, `-` stripped, i.e. the stored
cents), and remove every transaction carrying that id. -/
def deleteTransaction (s : WalletState) (transId : ℕ) : WalletState × Bool × String :=
  match s.transactions.find? (fun t => t.id == transId) with
  | none => (s, false, "Transaction not found")
  | some t =>
      ({ transactions := s.transactions.filter (fun u => u.id != transId),
         balance := if t.isIncome then s.balance - (t.amountCents : ℚ) / 100
                    else s.balance + (t.amountCents : ℚ) / 100,
         budget := s.budget }, true, "Transaction deleted successfully")

/-- Signed value of a stored record: the two-decimal amount, positive for
income and negative for expense. -/
def signedAmount (t : Transaction) : ℚ :=
  if t.isIncome then (t.amountCents : ℚ) / 100 else -((t.amountCents : ℚ) / 100)

/-- Sum of the signed amounts of the records currently in the store. -/
def signedSum (ts : List Transaction) : ℚ := (ts.map signedAmount).sum

/-- A user-level mutation of the wallet: one `add_transaction` or one
`delete_transaction` call. -/
inductive WalletOp where
  | add (amount : ℚ) (transType category description : String) (month : ℕ)
  | del (transId : ℕ)
deriving DecidableEq

/-- Whether an operation is an `add` call. -/
def WalletOp.isAdd : WalletOp → Bool
  | .add _ _ _ _ _ => true
  | .del _ => false

/-- State reached after one operation (the returned state of the call). -/
def applyOp (s : WalletState) : WalletOp → WalletState
  | .add a ty c d m => (addTransaction s a ty c d m).1
  | .del i => (deleteTransaction s i).1

/-- State reached after a sequence of operations. -/
def runOps (s : WalletState) (ops : List WalletOp) : WalletState := ops.foldl applyOp s

/-- Result record of `PersonalWallet.get_statistics` (lines 127–147). -/
structure Statistics where
  totalIncome : ℚ
  totalExpenses : ℚ
  netSavings : ℚ
  transactionCount : ℕ
  avgExpense : ℚ
  largestExpense : ℚ
deriving DecidableEq

/-- Embeds `PersonalWallet.get_statistics` (lines 127–147): `Decimal`
sums of the re-parsed amount strings of income resp. expense records,
their difference, the record count, the `Decimal`-context mean expense
(0 on an empty expense set) and the largest expense (0 on an empty
expense set, the `default` of `max`). -/
def getStatistics (ts : List Transaction) : Statistics :=
  let totalIncome :=
    ts.foldl (fun acc t => if t.isIncome then acc + (t.amountCents : ℚ) / 100 else acc) 0
  let totalExpenses :=
    ts.foldl (fun acc t => if t.isIncome then acc else acc + (t.amountCents : ℚ) / 100) 0
  let expenseTransactions := ts.filter (fun t => !t.isIncome)
  { totalIncome := totalIncome
    totalExpenses := totalExpenses
    netSavings := totalIncome - totalExpenses
    transactionCount := ts.length
    avgExpense := if expenseTransactions = [] then 0
                  else decDiv28 totalExpenses (expenseTransactions.length : ℚ)
    largestExpense := (expenseTransactions.map (fun t => (t.amountCents : ℚ) / 100)).foldr max 0 }

/-- Update an association list at a key, keeping the key's position
(the behaviour of assignment to an existing key of a Python dict), or
append the binding if the key is absent. -/
def upsertCat : List (String × ℚ) → String → ℚ → List (String × ℚ)
  | [], k, v => [(k, v)]
  | (k', v') :: rest, k, v =>
    if k' = k then (k, v) :: rest else (k', v') :: upsertCat rest k v

/-- Embeds `PersonalWallet.get_expense_by_category` (lines 149–156): a
`defaultdict(float)` accumulation — each stored amount string is
converted by `float(...)` and added with binary64 addition (both
roundings modelled by `fl`). -/
def getExpenseByCategory (ts : List Transaction) : List (String × ℚ) :=
  ts.foldl
    (fun acc t =>
      if t.isIncome then acc
      else
        let amt := fl ((t.amountCents : ℚ) / 100)
        let cur := (acc.lookup t.category).getD 0
        upsertCat acc t.category (fl (cur + amt)))
    []

/-- Update the per-month `{income, expense}` pair at a month key,
keeping dict insertion order; missing keys start from the defaultdict
default `(0, 0)`. -/
def monthUpsert (acc : List (ℕ × ℚ × ℚ)) (m : ℕ) (isInc : Bool) (amt : ℚ) :
    List (ℕ × ℚ × ℚ) :=
  match acc with
  | [] => if isInc then [(m, fl (0 + amt), 0)] else [(m, 0, fl (0 + amt))]
  | (k, inc, exp) :: rest =>
    if k = m then
      (if isInc then (k, fl (inc + amt), exp) else (k, inc, fl (exp + amt))) :: rest
    else (k, inc, exp) :: monthUpsert rest m isInc amt

/-- The `monthly_data` defaultdict built by the loop of
`PersonalWallet.get_monthly_data` (lines 160–170): for every transaction
(income and expense alike) the month key of its date is inserted and the
`float` of its amount added to the month's income or expense sum with
binary64 addition. -/
def buildMonthly (ts : List Transaction) : List (ℕ × ℚ × ℚ) :=
  ts.foldl
    (fun acc t => monthUpsert acc t.month t.isIncome |fl ((t.amountCents : ℚ) / 100)|) []

/-- Python list slice `l[-m:]` for a nonnegative `m`: the last `m`
elements — except that `m = 0` yields the whole list (`-0 == 0`). -/
def pyLastSlice (l : List α) (m : ℕ) : List α :=
  if m = 0 then l else l.drop (l.length - m)

/-- Specification-side recurrence for the month-key list of the
`monthly_data` dict: append a key when it is new, keep the list
otherwise (dicts preserve insertion order). -/
def addNewKey (ks : List ℕ) (m : ℕ) : List ℕ := if m ∈ ks then ks else ks ++ [m]

/-- Embeds `PersonalWallet.get_monthly_data` (lines 158–174): build the
per-month sums, sort the month keys ascending, keep the last `months`
of them (Python slice `[-months:]`) and return the mapping restricted
to those keys, in ascending key order. -/
def getMonthlyData (ts : List Transaction) (months : ℕ) : List (ℕ × ℚ × ℚ) :=
  let data := buildMonthly ts
  let sortedMonths := List.insertionSort (· ≤ ·) (data.map Prod.fst)
  (pyLastSlice sortedMonths months).map (fun m => (m, (data.lookup m).getD (0, 0)))

/-- Result record of `PersonalWallet.get_budget_status` (lines 221–226). -/
structure BudgetStatus where
  budget : ℚ
  spent : ℚ
  remaining : ℚ
  percentage : ℚ
deriving DecidableEq

/-- The `Decimal` sum of the amounts of the expense records whose date
string starts with the given month (`month_expenses`, lines 212–216). -/
def monthExpenses (ts : List Transaction) (currentMonth : ℕ) : ℚ :=
  ts.foldl
    (fun acc t =>
      if !t.isIncome && t.month == currentMonth then acc + (t.amountCents : ℚ) / 100 else acc)
    0

/-- Embeds `PersonalWallet.get_budget_status` (lines 205–226): `None`
when the budget is zero; otherwise the budget, the current month's
expense sum, the remaining budget, and the percentage
`spent / budget * 100` computed in the `Decimal` context when the
budget is positive (`0` otherwise) and then converted by `float(...)`.
The current month (`datetime.now()`) is passed explicitly. -/
def getBudgetStatus (s : WalletState) (currentMonth : ℕ) : Option BudgetStatus :=
  if s.budget = 0 then none
  else
    let spent := monthExpenses s.transactions currentMonth
    some { budget := s.budget, spent := spent, remaining := s.budget - spent,
           percentage := fl (if 0 < s.budget then decMul28 (decDiv28 spent s.budget) 100 else 0) }

/-- The decimal string of a two-decimal `Decimal` value, as written by
`str(...)` inside `save_data`: an optional minus sign, the integer-part
digits (least significant first; `[]` encodes the single digit "0") and
the two fractional digits (as a number below 100, written zero-padded). -/
structure DecRep where
  neg : Bool
  intDigits : List ℕ
  fracCents : ℕ
deriving DecidableEq

/-- Render a two-decimal value as its decimal string (`str` of the
`Decimal`). -/
def renderDec (q : ℚ) : DecRep :=
  let c : ℤ := (q * 100).num
  ⟨decide (c < 0), decDigits (c.natAbs / 100), c.natAbs % 100⟩

/-- Parse a rendered decimal string back into its value
(`Decimal(str(...))` inside `load_data`). -/
def parseDec (r : DecRep) : ℚ :=
  (if r.neg then -1 else 1) * ((undigits r.intDigits : ℚ) + (r.fracCents : ℚ) / 100)

/-- The JSON object written by `PersonalWallet.save_data` (lines 49–61):
the transaction list (JSON serializes its ints, strings and floats
losslessly), the balance and budget as decimal strings, and the
`last_updated` timestamp. -/
structure SavedFile where
  transactions : List Transaction
  balanceStr : DecRep
  budgetStr : DecRep
  lastUpdated : String
deriving DecidableEq

/-- Embeds `PersonalWallet.save_data` (lines 49–61); `now` is the
`datetime.now().isoformat()` timestamp. -/
def saveData (s : WalletState) (now : String) : SavedFile :=
  ⟨s.transactions, renderDec s.balance, renderDec s.budget, now⟩

/-- Embeds the file-exists branch of `PersonalWallet.load_data`
(lines 36–41): take the transaction list as stored and re-parse the
balance and budget decimal strings (`last_updated` is ignored). -/
def loadData (f : SavedFile) : WalletState :=
  ⟨f.transactions, parseDec f.balanceStr, parseDec f.budgetStr⟩

/-- ASCII lower-casing of one character (Python `str.lower` restricted
to the ASCII strings appearing in the panel). -/
def charLower (c : Char) : Char :=
  if 'A' ≤ c ∧ c ≤ 'Z' then Char.ofNat (c.toNat + 32) else c

/-- Python `str.lower()` on the character list of a string. -/
def lowerList (l : List Char) : List Char := l.map charLower

/-- Python `str.strip()`: drop whitespace from both ends. -/
def trimList (l : List Char) : List Char :=
  ((l.dropWhile Char.isWhitespace).reverse.dropWhile Char.isWhitespace).reverse

/-- Whether the first character list is a prefix of the second
(Boolean, kernel-evaluable). -/
def startsList : List Char → List Char → Bool
  | [], _ => true
  | _ :: _, [] => false
  | a :: as, b :: bs => a == b && startsList as bs

/-- Whether the first character list occurs contiguously in the second
(the Python `in` operator on strings). -/
def hasSeg : List Char → List Char → Bool
  | n, [] => n.isEmpty
  | n, c :: t => startsList n (c :: t) || hasSeg n t

/-- Python `needle in hay` on strings (as character lists). -/
def strContains (needle hay : List Char) : Bool := hasSeg needle hay

/-- One entry of `TaskPanel.items` (src/panel2.py, line 29). -/
structure TaskItem where
  id : ℕ
  cat : String
  priority : String
  task : String
  time : String
  done : Bool
deriving DecidableEq

/-- The three view filters of the task panel: the search entry text, the
status combo (`"All" | "Pending" | "Completed"`) and the category combo
(`"All"` or a category). -/
structure PanelFilters where
  searchQuery : String
  statusFilter : String
  categoryFilter : String
deriving DecidableEq

/-- Embeds `TaskPanel._passes_filters` (src/panel2.py, lines 232–248):
category filter, status filter, then case-insensitive containment of the
stripped, lowered query in `"{task} {cat} {priority} {time}"` lowered. -/
def passesFilters (f : PanelFilters) (it : TaskItem) : Bool :=
  let q := lowerList (trimList f.searchQuery.toList)
  let hay := lowerList (it.task ++ " " ++ it.cat ++ " " ++ it.priority ++ " " ++ it.time).toList
  (f.categoryFilter == "All" || it.cat == f.categoryFilter) &&
  (f.statusFilter == "All" ||
    f.statusFilter == (if it.done then "Completed" else "Pending")) &&
  (q.isEmpty || strContains q hay)

/-- One element of the JSON array written by `TaskPanel.save_tasks`
(the `metas` snapshot of a task, src/panel2.py lines 272–279). -/
structure SavedTask where
  id : ℕ
  category : String
  priority : String
  text : String
  created : String
  done : Bool
deriving DecidableEq

/-- The `metas` JSON snapshot of a task item (src/panel2.py,
lines 272–279). -/
def toSavedTask (it : TaskItem) : SavedTask :=
  ⟨it.id, it.cat, it.priority, it.task, it.time, it.done⟩

/-- The rows present in the Treeview after `TaskPanel._rebuild_tree`
(lines 253–282): exactly the items passing the active filters, in item
order. -/
def treeRows (items : List TaskItem) (f : PanelFilters) : List TaskItem :=
  items.filter (passesFilters f)

/-- Embeds `TaskPanel.save_tasks` (src/panel2.py, lines 309–319): the
JSON array written to the file collects the `metas` entries of the rows
currently in the tree — i.e. of the items passing the active filters. -/
def saveTasks (items : List TaskItem) (f : PanelFilters) : List SavedTask :=
  (treeRows items f).map toSavedTask

/-- Digit lists round-trip through `undigits` once the fuel covers the
number. -/
theorem undigits_digitsF : ∀ (f n : ℕ), n ≤ f → undigits (digitsF f n) = n := by
  intro f
  induction f with
  | zero =>
    intro n h
    have : n = 0 := Nat.le_zero.mp h
    subst this
    rfl
  | succ f ih =>
    intro n h
    by_cases h0 : n = 0
    · subst h0; rfl
    · have hlt : n / 10 ≤ f := by
        have := Nat.div_lt_self (Nat.pos_of_ne_zero h0) (by norm_num : 1 < 10)
        omega
      show undigits (digitsF (f + 1) n) = n
      rw [digitsF, if_neg h0]
      show n % 10 + 10 * undigits (digitsF f (n / 10)) = n
      rw [ih (n / 10) hlt]
      exact Nat.mod_add_div n 10

/-- Reassembly inverts `decDigits`. -/
theorem undigits_decDigits (n : ℕ) : undigits (decDigits n) = n :=
  undigits_digitsF n n le_rfl

/-- Round-half-even of an integer is that integer. -/
theorem rhe_intCast (z : ℤ) : rhe (z : ℚ) = z := by
  rw [rhe, Int.fract_intCast, if_neg (by norm_num), round_intCast]

/-- Grid rounding fixes every exact grid multiple. -/
theorem gridRound_eq_of_mul (q g : ℚ) (m : ℤ) (hg : g ≠ 0) (h : q = (m : ℚ) * g) :
    gridRound q g = q := by
  rw [gridRound, h, mul_div_assoc, div_self hg, mul_one, rhe_intCast]

/-- Fuelled floor logarithm is bounded by any exponent whose power
exceeds the argument. -/
theorem flogF_le (b : ℕ) (hb : 2 ≤ b) :
    ∀ (f n c : ℕ), n < b ^ (c + 1) → flogF b f n ≤ c := by
  intro f
  induction f with
  | zero => intro n c _; exact Nat.zero_le c
  | succ f ih =>
    intro n c h
    rw [flogF]
    by_cases hbn : b ≤ n
    · rw [if_pos hbn]
      cases c with
      | zero =>
        exfalso
        have : n < b := by simpa using h
        omega
      | succ c =>
        have hdiv : n / b < b ^ (c + 1) := by
          rw [Nat.div_lt_iff_lt_mul (by omega : 0 < b)]
          calc n < b ^ (c + 2) := h
            _ = b ^ (c + 1) * b := by ring
        exact Nat.succ_le_succ (ih (n / b) c hdiv)
    · rw [if_neg hbn]; exact Nat.zero_le c

/-- Bound for `natFlog`. -/
theorem natFlog_le (b n c : ℕ) (hb : 2 ≤ b) (h : n < b ^ (c + 1)) : natFlog b n ≤ c :=
  flogF_le b hb n n c h

/-- Grid rounding at a power grid fixes every value that is an integer
multiple of a not-finer power. -/
theorem gridRound_pow_eq_self (bI : ℕ) (hb : 1 ≤ bI) (q : ℚ) (m n L : ℤ)
    (h : q = (m : ℚ) * (bI : ℚ) ^ n) (hge : L ≤ n) :
    gridRound q ((bI : ℚ) ^ L) = q := by
  have hbq : (bI : ℚ) ≠ 0 := by positivity
  apply gridRound_eq_of_mul q _ (m * (bI : ℤ) ^ (n - L).toNat) (zpow_ne_zero _ hbq)
  have hnl : ((n - L).toNat : ℤ) = n - L := Int.toNat_of_nonneg (by omega)
  push_cast
  rw [h, mul_assoc, ← zpow_natCast (bI : ℚ) (n - L).toNat, ← zpow_add₀ hbq]
  rw [hnl]
  ring_nf

/-- The 28-digit significance rounding fixes every value of the form
`m · 10^n` whose grid is not finer than the context grid. -/
theorem roundSig28_eq_self (q : ℚ) (m n : ℤ) (h : q = (m : ℚ) * (10 : ℚ) ^ n)
    (hge : qflog 10 |q| - 27 ≤ n) (hq : q ≠ 0) : roundSig28 q = q := by
  rw [roundSig28, if_neg hq]
  exact_mod_cast gridRound_pow_eq_self 10 (by norm_num) q m n _ (by exact_mod_cast h) hge

/-- The binary64 rounding fixes every value of the form `m · 2^n` whose
grid is not finer than the 53-bit grid. -/
theorem fl_eq_self (q : ℚ) (m n : ℤ) (h : q = (m : ℚ) * (2 : ℚ) ^ n)
    (hge : qflog 2 |q| - 52 ≤ n) (hq : q ≠ 0) : fl q = q := by
  rw [fl, if_neg hq]
  exact_mod_cast gridRound_pow_eq_self 2 (by norm_num) q m n _ (by exact_mod_cast h) hge

/-- Parsing a rendered two-decimal value recovers the value. -/
theorem parseDec_renderDec (q : ℚ) (h : (q * 100).den = 1) :
    parseDec (renderDec q) = q := by
  have hq : ((q * 100).num : ℚ) = q * 100 := by
    have h2 := Rat.num_div_den (q * 100)
    rw [h] at h2
    simpa using h2
  rw [parseDec, renderDec]
  simp only [decide_eq_true_eq]
  rw [undigits_decDigits]
  set c : ℤ := (q * 100).num with hc
  have key : ((c.natAbs / 100 : ℕ) : ℚ) + ((c.natAbs % 100 : ℕ) : ℚ) / 100
      = (c.natAbs : ℚ) / 100 := by
    field_simp
    norm_cast
    omega
  rw [key]
  by_cases hneg : c < 0
  · rw [if_pos hneg]
    have h2 : (c.natAbs : ℚ) = -(c : ℚ) := by
      rw [Int.cast_natAbs, abs_of_neg hneg]
      push_cast
      ring
    rw [h2, hq]
    ring
  · rw [if_neg hneg]
    have h2 : (c.natAbs : ℚ) = (c : ℚ) := by
      rw [Int.cast_natAbs, abs_of_nonneg (not_lt.mp hneg)]
    rw [h2, hq]
    ring

/-- C5: saving a valid in-memory state (balance and budget carrying at
most two decimals) and loading the saved file reconstructs exactly the
same state, field for field — the transaction list is stored as-is and
the two decimal strings parse back to the identical values. -/
theorem c5_save_load_roundtrip (s : WalletState) (now : String)
    (hb : (s.balance * 100).den = 1) (hg : (s.budget * 100).den = 1) :
    loadData (saveData s now) = s := by
  cases s with
  | mk ts bal bud =>
    show WalletState.mk ts (parseDec (renderDec bal)) (parseDec (renderDec bud))
        = WalletState.mk ts bal bud
    rw [parseDec_renderDec bal hb, parseDec_renderDec bud hg]

/-- Witness for C5 at a concrete state: one stored income, balance
12.35, budget 50. -/
theorem c5_witness :
    (((247 : ℚ) / 20) * 100).den = 1 ∧ (((50 : ℚ)) * 100).den = 1 ∧
    loadData (saveData ⟨[⟨1, 1000, true, "Salary", "No description", 0, 10⟩], 247 / 20, 50⟩
        "2025-01-01T00:00:00")
      = ⟨[⟨1, 1000, true, "Salary", "No description", 0, 10⟩], 247 / 20, 50⟩ :=
  ⟨by decide, by decide,
    c5_save_load_roundtrip ⟨[⟨1, 1000, true, "Salary", "No description", 0, 10⟩], 247 / 20, 50⟩
      "2025-01-01T00:00:00" (by decide) (by decide)⟩

/-- Appending one record whose id is `length + 1` to a store with
canonical ids keeps the id list canonical. -/
theorem ids_append_next (ts : List Transaction) (tr : Transaction)
    (hid : tr.id = ts.length + 1)
    (hs : ts.map (fun t => t.id) = List.range' 1 ts.length) :
    (ts ++ [tr]).map (fun t => t.id) = List.range' 1 (ts ++ [tr]).length := by
  rw [List.map_append, hs, List.length_append]
  simp [List.range'_concat, hid, Nat.add_comm]

/-- One `add_transaction` call keeps the id list canonical
(`[1, 2, …, n]` in store order): the fresh id is
`len(transactions) + 1`. -/
theorem ids_after_add (s : WalletState) (a : ℚ) (ty c d : String) (m : ℕ)
    (hs : s.transactions.map (fun t => t.id) = List.range' 1 s.transactions.length) :
    (addTransaction s a ty c d m).1.transactions.map (fun t => t.id)
      = List.range' 1 (addTransaction s a ty c d m).1.transactions.length := by
  rw [addTransaction]
  split_ifs <;>
    first
      | exact hs
      | exact ids_append_next s.transactions _ rfl hs

/-- Running a sequence of `add` calls from a state with canonical ids
keeps the ids canonical. -/
theorem runOps_adds_canonical (ops : List WalletOp) :
    (∀ op ∈ ops, op.isAdd = true) →
    ∀ s : WalletState,
      s.transactions.map (fun t => t.id) = List.range' 1 s.transactions.length →
      (runOps s ops).transactions.map (fun t => t.id)
        = List.range' 1 (runOps s ops).transactions.length := by
  induction ops with
  | nil => intro _ s hs; simpa [runOps] using hs
  | cons op rest ih =>
    intro h s hs
    have hop := h op (List.mem_cons_self op rest)
    have hrest := fun o ho => h o (List.mem_cons_of_mem op ho)
    show (runOps (applyOp s op) rest).transactions.map (fun t => t.id)
      = List.range' 1 (runOps (applyOp s op) rest).transactions.length
    cases op with
    | add a ty c d m => exact ih hrest _ (ids_after_add s a ty c d m hs)
    | del i => exact absurd hop (by simp [WalletOp.isAdd])

/-- C2 amended: for every sequence consisting only of `add` operations
from the empty store, the stored ids are exactly `1, 2, …, n` in store
order — pairwise distinct and strictly increasing.  (With deletions the
claim fails: the fresh id `len(transactions) + 1` can coincide with an
id still in use, see the counterexample.) -/
theorem c2_amended (ops : List WalletOp) (h : ∀ op ∈ ops, op.isAdd = true) :
    (runOps emptyWallet ops).transactions.map (fun t => t.id)
      = List.range' 1 (runOps emptyWallet ops).transactions.length ∧
    List.Pairwise (· < ·)
      ((runOps emptyWallet ops).transactions.map (fun t => t.id)) := by
  have hids := runOps_adds_canonical ops h emptyWallet rfl
  refine ⟨hids, ?_⟩
  rw [hids]
  exact List.pairwise_lt_range' 1 _

/-- Witness for C2 (amended) at a concrete add-only sequence. -/
theorem c2_witness :
    (∀ op ∈ ([WalletOp.add 10 "income" "Salary" "" 0,
              WalletOp.add (5 / 2) "expense" "Food" "" 0] : List WalletOp),
        op.isAdd = true) ∧
    (runOps emptyWallet
        [WalletOp.add 10 "income" "Salary" "" 0,
         WalletOp.add (5 / 2) "expense" "Food" "" 0]).transactions.map (fun t => t.id)
      = List.range' 1 (runOps emptyWallet
          [WalletOp.add 10 "income" "Salary" "" 0,
           WalletOp.add (5 / 2) "expense" "Food" "" 0]).transactions.length ∧
    List.Pairwise (· < ·)
      ((runOps emptyWallet
        [WalletOp.add 10 "income" "Salary" "" 0,
         WalletOp.add (5 / 2) "expense" "Food" "" 0]).transactions.map (fun t => t.id)) :=
  ⟨by decide, (c2_amended _ (by decide)).1, (c2_amended _ (by decide)).2⟩

/-- Signed sums extend over an appended record. -/
theorem signedSum_append (ts : List Transaction) (t : Transaction) :
    signedSum (ts ++ [t]) = signedSum ts + signedAmount t := by
  simp [signedSum]

/-- Appending an income record of signed value `v` moves the signed sum
in step with the balance update `+ v`. -/
theorem balance_sum_append_inc (bal : ℚ) (ts : List Transaction) (tr : Transaction) (v : ℚ)
    (hinv : bal = signedSum ts) (hv : signedAmount tr = v) :
    bal + v = signedSum (ts ++ [tr]) := by
  rw [signedSum_append, ← hinv, hv]

/-- Appending an expense record of signed value `-v` moves the signed
sum in step with the balance update `- v`. -/
theorem balance_sum_append_exp (bal : ℚ) (ts : List Transaction) (tr : Transaction) (v : ℚ)
    (hinv : bal = signedSum ts) (hv : signedAmount tr = -v) :
    bal - v = signedSum (ts ++ [tr]) := by
  rw [signedSum_append, ← hinv, hv]
  ring

/-- For a positive amount with at most two decimals, the stored cents
recover the amount exactly (no rounding happens in the 2-decimal
formatting). -/
theorem cents_of_twoDecimals (a : ℚ) (hpos : 0 < a) (hden : (a * 100).den = 1) :
    (((rhe (a * 100)).toNat : ℕ) : ℚ) / 100 = a := by
  have hnum : (((a * 100).num : ℤ) : ℚ) = a * 100 := by
    have h2 := Rat.num_div_den (a * 100)
    rw [hden] at h2
    simpa using h2
  set z := (a * 100).num with hz
  have h3 : rhe (a * 100) = z := by
    rw [← hnum]
    exact rhe_intCast z
  have hz0 : 0 ≤ z := by
    have hq : (0 : ℚ) < a * 100 := by positivity
    rw [← hnum] at hq
    exact_mod_cast hq.le
  have h4 : ((z.toNat : ℕ) : ℚ) = (z : ℚ) := by exact_mod_cast Int.toNat_of_nonneg hz0
  rw [h3, h4, hnum]
  ring

/-- When exactly one stored record carries an id, `find?` returns it and
filtering it away lowers the signed sum by exactly its signed amount. -/
theorem find_filter_signedSum (ts : List Transaction) (i : ℕ)
    (h : ts.countP (fun t => t.id == i) = 1) :
    ∃ t, ts.find? (fun t => t.id == i) = some t ∧
      signedSum (ts.filter (fun u => u.id != i)) = signedSum ts - signedAmount t := by
  induction ts with
  | nil => simp [List.countP_nil] at h
  | cons a rest ih =>
    rw [List.countP_cons] at h
    by_cases ha : a.id = i
    · have hpa : (fun t => t.id == i) a = true := by simp [ha]
      have hrest : rest.countP (fun t => t.id == i) = 0 := by
        rw [if_pos hpa] at h
        omega
      refine ⟨a, List.find?_cons_of_pos rest hpa, ?_⟩
      have hfilter : rest.filter (fun u => u.id != i) = rest :=
        List.filter_eq_self.mpr (fun u hu => by
          have hne := List.countP_eq_zero.mp hrest u hu
          simpa using hne)
      rw [List.filter_cons, if_neg (by simp [ha]), hfilter]
      have e2 : signedSum (a :: rest) = signedAmount a + signedSum rest := by simp [signedSum]
      rw [e2]
      ring
    · have hpa : ¬ (fun t => t.id == i) a = true := by simp [ha]
      have h' : rest.countP (fun t => t.id == i) = 1 := by
        rw [if_neg hpa] at h
        omega
      obtain ⟨t, hfind, hsum⟩ := ih h'
      refine ⟨t, ?_, ?_⟩
      · rw [List.find?_cons_of_neg rest hpa, hfind]
      · rw [List.filter_cons, if_pos (by simp [ha])]
        have e1 : signedSum (a :: rest.filter (fun u => u.id != i))
            = signedAmount a + signedSum (rest.filter (fun u => u.id != i)) := by
          simp [signedSum]
        have e2 : signedSum (a :: rest) = signedAmount a + signedSum rest := by simp [signedSum]
        rw [e1, e2, hsum]
        ring

/-- C1 amended: if `balance()` equals the signed sum of the currently
stored records, it still does after (a) any `add_transaction` call whose
amount carries at most two decimals, and (b) any `delete_transaction`
call whose target id is carried by exactly one stored record.  (Without
these provisos the claim fails: a duplicated id — reachable through
deletion, see the C2 counterexample — makes `delete` remove two records
while reversing only one, and a more-than-two-decimal amount is rounded
in the stored string but applied exactly to the balance.) -/
theorem c1_amended (s : WalletState) (hinv : s.balance = signedSum s.transactions) :
    (∀ (a : ℚ) (ty cat desc : String) (m : ℕ), (a * 100).den = 1 →
      (addTransaction s a ty cat desc m).1.balance
        = signedSum (addTransaction s a ty cat desc m).1.transactions) ∧
    (∀ i : ℕ, s.transactions.countP (fun t => t.id == i) = 1 →
      (deleteTransaction s i).1.balance
        = signedSum (deleteTransaction s i).1.transactions) := by
  constructor
  · intro a ty cat desc m hden
    rw [addTransaction]
    split_ifs <;>
      first
        | exact hinv
        | exact balance_sum_append_inc s.balance s.transactions _ a hinv
            (by simp [signedAmount,
                  cents_of_twoDecimals a (not_le.mp (by assumption)) hden])
        | exact balance_sum_append_exp s.balance s.transactions _ a hinv
            (by simp [signedAmount,
                  cents_of_twoDecimals a (not_le.mp (by assumption)) hden])
  · intro i hcount
    obtain ⟨t, hfind, hsum⟩ := find_filter_signedSum s.transactions i hcount
    rw [deleteTransaction, hfind]
    show (if t.isIncome then s.balance - (t.amountCents : ℚ) / 100
          else s.balance + (t.amountCents : ℚ) / 100)
        = signedSum (s.transactions.filter (fun u => u.id != i))
    rw [hsum, ← hinv]
    by_cases ht : t.isIncome
    · simp [signedAmount, ht]
    · simp only [signedAmount, ht, if_neg Bool.false_ne_true, Bool.false_eq_true, if_false]
      ring

/-- Witness for C1 (amended) at a concrete state: balance 10 matching
one stored income of $10; an expense add of 2.50 and the delete of id 1
both preserve the balance/sum agreement. -/
theorem c1_witness :
    (WalletState.mk [⟨1, 1000, true, "Salary", "No description", 0, 10⟩] 10 0).balance
      = signedSum [⟨1, 1000, true, "Salary", "No description", 0, 10⟩] ∧
    (((5 : ℚ) / 2) * 100).den = 1 ∧
    (addTransaction ⟨[⟨1, 1000, true, "Salary", "No description", 0, 10⟩], 10, 0⟩
        (5 / 2) "expense" "Food" "" 0).1.balance
      = signedSum (addTransaction ⟨[⟨1, 1000, true, "Salary", "No description", 0, 10⟩], 10, 0⟩
        (5 / 2) "expense" "Food" "" 0).1.transactions ∧
    ([⟨1, 1000, true, "Salary", "No description", 0, 10⟩] :
        List Transaction).countP (fun t => t.id == 1) = 1 ∧
    (deleteTransaction ⟨[⟨1, 1000, true, "Salary", "No description", 0, 10⟩], 10, 0⟩ 1).1.balance
      = signedSum (deleteTransaction
          ⟨[⟨1, 1000, true, "Salary", "No description", 0, 10⟩], 10, 0⟩ 1).1.transactions :=
  ⟨by decide, by decide,
    (c1_amended ⟨[⟨1, 1000, true, "Salary", "No description", 0, 10⟩], 10, 0⟩ (by decide)).1
      (5 / 2) "expense" "Food" "" 0 (by decide),
    by decide,
    (c1_amended ⟨[⟨1, 1000, true, "Salary", "No description", 0, 10⟩], 10, 0⟩ (by decide)).2
      1 (by decide)⟩

/-- C3: in every store state, an expense `add` whose (positive) amount
exceeds the current balance fails with the insufficient-balance error
and leaves the state — in particular `balance()` and the record count —
exactly unchanged. -/
theorem c3_insufficient_expense_rejected (s : WalletState) (amount : ℚ)
    (category description : String) (month : ℕ)
    (hpos : 0 < amount) (hgt : s.balance < amount) :
    addTransaction s amount "expense" category description month
      = (s, false, "Insufficient balance for this expense") ∧
    (addTransaction s amount "expense" category description month).1.balance = s.balance ∧
    (addTransaction s amount "expense" category description month).1.transactions.length
      = s.transactions.length := by
  have h1 : ¬ amount ≤ 0 := not_le.mpr hpos
  have h2 : ¬ ("expense" : String) = "income" := by decide
  rw [addTransaction, if_neg h1, if_neg h2, if_pos rfl, if_pos hgt]
  exact ⟨rfl, rfl, rfl⟩

/-- Witness for C3 at a concrete input: balance 5, expense of 7. -/
theorem c3_witness :
    (0 : ℚ) < 7 ∧ (WalletState.mk [] 5 0).balance < 7 ∧
    addTransaction ⟨[], 5, 0⟩ 7 "expense" "Food" "" 0
      = (⟨[], 5, 0⟩, false, "Insufficient balance for this expense") ∧
    (addTransaction ⟨[], 5, 0⟩ 7 "expense" "Food" "" 0).1.balance
      = (WalletState.mk [] 5 0).balance ∧
    (addTransaction ⟨[], 5, 0⟩ 7 "expense" "Food" "" 0).1.transactions.length
      = (WalletState.mk [] 5 0).transactions.length :=
  ⟨by decide, by decide,
    (c3_insufficient_expense_rejected ⟨[], 5, 0⟩ 7 "Food" "" 0 (by decide) (by decide)).1,
    (c3_insufficient_expense_rejected ⟨[], 5, 0⟩ 7 "Food" "" 0 (by decide) (by decide)).2.1,
    (c3_insufficient_expense_rejected ⟨[], 5, 0⟩ 7 "Food" "" 0 (by decide) (by decide)).2.2⟩

/-- C7: deleting a present id succeeds, an immediately repeated delete of
the same id fails with "Transaction not found" and changes nothing (in
particular the balance); and in general, deleting an id absent from the
store fails with "Transaction not found" and mutates nothing. -/
theorem c7_delete_twice_notfound (s : WalletState) (i : ℕ)
    (h : ∃ t ∈ s.transactions, t.id = i) :
    (deleteTransaction s i).2.1 = true ∧
    deleteTransaction (deleteTransaction s i).1 i
      = ((deleteTransaction s i).1, false, "Transaction not found") ∧
    ∀ (u : WalletState) (j : ℕ), (∀ t ∈ u.transactions, t.id ≠ j) →
      deleteTransaction u j = (u, false, "Transaction not found") := by
  have habsent : ∀ (u : WalletState) (j : ℕ), (∀ t ∈ u.transactions, t.id ≠ j) →
      deleteTransaction u j = (u, false, "Transaction not found") := by
    intro u j hu
    have hnone : u.transactions.find? (fun t => t.id == j) = none :=
      List.find?_eq_none.mpr (fun t ht => by simpa using hu t ht)
    rw [deleteTransaction, hnone]
  obtain ⟨t, ht, hid⟩ := h
  have hsome : (s.transactions.find? (fun t => t.id == i)).isSome :=
    List.find?_isSome.mpr ⟨t, ht, by simpa using hid⟩
  refine ⟨?_, ?_, habsent⟩
  · cases hfind : s.transactions.find? (fun t => t.id == i) with
    | none => rw [hfind] at hsome; simp at hsome
    | some u => rw [deleteTransaction, hfind]
  · refine habsent _ i (fun u hu => ?_)
    cases hfind : s.transactions.find? (fun t => t.id == i) with
    | none => rw [hfind] at hsome; simp at hsome
    | some v =>
      rw [deleteTransaction, hfind] at hu
      have := List.of_mem_filter hu
      simpa using this

/-- Witness for C7 at a concrete input: a store holding one income of
id 1, deleted twice. -/
theorem c7_witness :
    (∃ t ∈ (WalletState.mk [⟨1, 1000, true, "Salary", "No description", 0, 10⟩] 10 0).transactions,
        t.id = 1) ∧
    (deleteTransaction ⟨[⟨1, 1000, true, "Salary", "No description", 0, 10⟩], 10, 0⟩ 1).2.1 = true ∧
    deleteTransaction
        (deleteTransaction ⟨[⟨1, 1000, true, "Salary", "No description", 0, 10⟩], 10, 0⟩ 1).1 1
      = ((deleteTransaction ⟨[⟨1, 1000, true, "Salary", "No description", 0, 10⟩], 10, 0⟩ 1).1,
         false, "Transaction not found") :=
  ⟨by decide,
    (c7_delete_twice_notfound ⟨[⟨1, 1000, true, "Salary", "No description", 0, 10⟩], 10, 0⟩ 1
      (by decide)).1,
    (c7_delete_twice_notfound ⟨[⟨1, 1000, true, "Salary", "No description", 0, 10⟩], 10, 0⟩ 1
      (by decide)).2.1⟩

/-- C10: `delete_transaction` performs no balance validation.  Starting
from the empty store, add an income of 10 and an expense of 5 (both
accepted), so the balance 5 is smaller than the stored income amount 10;
deleting that income record succeeds and drives the balance to −5,
strictly negative — the non-negativity enforced by `add_transaction` is
not preserved by deletion. -/
theorem c10_delete_skips_balance_validation :
    (addTransaction emptyWallet 10 "income" "Salary" "" 0).2.1 = true ∧
    (addTransaction (addTransaction emptyWallet 10 "income" "Salary" "" 0).1
        5 "expense" "Food" "" 0).2.1 = true ∧
    (addTransaction (addTransaction emptyWallet 10 "income" "Salary" "" 0).1
        5 "expense" "Food" "" 0).1.balance = 5 ∧
    (∃ t ∈ (addTransaction (addTransaction emptyWallet 10 "income" "Salary" "" 0).1
        5 "expense" "Food" "" 0).1.transactions, t.isIncome = true ∧
      (addTransaction (addTransaction emptyWallet 10 "income" "Salary" "" 0).1
        5 "expense" "Food" "" 0).1.balance < (t.amountCents : ℚ) / 100) ∧
    (deleteTransaction (addTransaction (addTransaction emptyWallet 10 "income" "Salary" "" 0).1
        5 "expense" "Food" "" 0).1 1).2.1 = true ∧
    (deleteTransaction (addTransaction (addTransaction emptyWallet 10 "income" "Salary" "" 0).1
        5 "expense" "Food" "" 0).1 1).1.balance = -5 ∧
    (deleteTransaction (addTransaction (addTransaction emptyWallet 10 "income" "Salary" "" 0).1
        5 "expense" "Food" "" 0).1 1).1.balance < 0 := by decide

/-- C4 (code bug in `TaskPanel.save_tasks`): with the category filter
set to "Home" (search empty, status "All"), saving a panel that holds a
"Home" task and a "Gym" task writes only the "Home" row — the saved set
is the filtered view, not the full item list. -/
theorem c4_save_writes_filtered_view_only :
    saveTasks
        [⟨1, "Home", "Medium", "buy milk", "2025-01-01 09:00", false⟩,
         ⟨2, "Gym", "High", "leg day", "2025-01-01 09:05", false⟩]
        ⟨"", "All", "Home"⟩
      = [⟨1, "Home", "Medium", "buy milk", "2025-01-01 09:00", false⟩] ∧
    saveTasks
        [⟨1, "Home", "Medium", "buy milk", "2025-01-01 09:00", false⟩,
         ⟨2, "Gym", "High", "leg day", "2025-01-01 09:05", false⟩]
        ⟨"", "All", "Home"⟩
      ≠ [⟨1, "Home", "Medium", "buy milk", "2025-01-01 09:00", false⟩,
         ⟨2, "Gym", "High", "leg day", "2025-01-01 09:05", false⟩].map toSavedTask := by decide

/-- C1 counterexample: the valid operation sequence
add-income 10 (id 1), add-income 20 (id 2), delete 1, add-income 30
(assigned the already-used id 2), delete 2 — every call succeeds, yet it
ends with balance 30 while the store is empty (signed sum 0): the
balance invariant drifts because the final delete removes both records
carrying id 2 but reverses only the first. -/
theorem c1_counterexample :
    ((addTransaction emptyWallet 10 "income" "Salary" "" 0).2.1 = true ∧
     (addTransaction (addTransaction emptyWallet 10 "income" "Salary" "" 0).1
        20 "income" "Salary" "" 0).2.1 = true ∧
     (deleteTransaction (addTransaction (addTransaction emptyWallet 10 "income" "Salary" "" 0).1
        20 "income" "Salary" "" 0).1 1).2.1 = true ∧
     (addTransaction (deleteTransaction (addTransaction
        (addTransaction emptyWallet 10 "income" "Salary" "" 0).1
        20 "income" "Salary" "" 0).1 1).1 30 "income" "Salary" "" 0).2.1 = true ∧
     (deleteTransaction (addTransaction (deleteTransaction (addTransaction
        (addTransaction emptyWallet 10 "income" "Salary" "" 0).1
        20 "income" "Salary" "" 0).1 1).1 30 "income" "Salary" "" 0).1 2).2.1 = true) ∧
    (deleteTransaction (addTransaction (deleteTransaction (addTransaction
        (addTransaction emptyWallet 10 "income" "Salary" "" 0).1
        20 "income" "Salary" "" 0).1 1).1 30 "income" "Salary" "" 0).1 2).1.balance = 30 ∧
    signedSum (deleteTransaction (addTransaction (deleteTransaction (addTransaction
        (addTransaction emptyWallet 10 "income" "Salary" "" 0).1
        20 "income" "Salary" "" 0).1 1).1 30 "income" "Salary" "" 0).1 2).1.transactions = 0 ∧
    (deleteTransaction (addTransaction (deleteTransaction (addTransaction
        (addTransaction emptyWallet 10 "income" "Salary" "" 0).1
        20 "income" "Salary" "" 0).1 1).1 30 "income" "Salary" "" 0).1 2).1.balance
      ≠ signedSum (deleteTransaction (addTransaction (deleteTransaction (addTransaction
        (addTransaction emptyWallet 10 "income" "Salary" "" 0).1
        20 "income" "Salary" "" 0).1 1).1 30 "income" "Salary" "" 0).1 2).1.transactions := by
  decide

/-- C2 counterexample: after add-income 10 (id 1), add-income 20 (id 2),
delete 1, add-income 30, the fresh record is assigned
`len(transactions) + 1 = 2`, an id already in use: the stored id list is
`[2, 2]`, neither pairwise distinct nor fresh. -/
theorem c2_counterexample :
    (runOps emptyWallet
        [.add 10 "income" "Salary" "" 0, .add 20 "income" "Salary" "" 0,
         .del 1, .add 30 "income" "Salary" "" 0]).transactions.map (fun t => t.id) = [2, 2] ∧
    ¬ ((runOps emptyWallet
        [.add 10 "income" "Salary" "" 0, .add 20 "income" "Salary" "" 0,
         .del 1, .add 30 "income" "Salary" "" 0]).transactions.map (fun t => t.id)).Nodup := by
  decide

/-- C6 counterexample: a store whose single record lies in one month,
queried with a window of 6, yields one period key, not 6 — months
without records are not zero-filled. -/
theorem c6_counterexample :
    (getMonthlyData [⟨1, 1000, true, "Salary", "No description", 5, fl 10⟩] 6).length = 1 ∧
    (getMonthlyData [⟨1, 1000, true, "Salary", "No description", 5, fl 10⟩] 6).length ≠ 6 := by
  decide

/-- C8 counterexample: three expense records of $0.10 in category
"Food".  The per-category sum is accumulated in binary64 floating
point, giving 0.1 + 0.1 + 0.1 = 0.30000000000000004
(= 1351079888211149 · 2⁻⁵²), which differs from the exact decimal sum
3/10 of the stored two-decimal amounts. -/
theorem c8_counterexample :
    (getExpenseByCategory
        [⟨1, 10, false, "Food", "No description", 0, fl (1 / 10)⟩,
         ⟨2, 10, false, "Food", "No description", 0, fl (1 / 10)⟩,
         ⟨3, 10, false, "Food", "No description", 0, fl (1 / 10)⟩]).lookup "Food"
      = some ((1351079888211149 : ℚ) / 2 ^ 52) ∧
    (1351079888211149 : ℚ) / 2 ^ 52
      ≠ (([⟨1, 10, false, "Food", "No description", 0, fl (1 / 10)⟩,
           ⟨2, 10, false, "Food", "No description", 0, fl (1 / 10)⟩,
           ⟨3, 10, false, "Food", "No description", 0, fl (1 / 10)⟩] :
            List Transaction).map (fun t => (t.amountCents : ℚ) / 100)).sum := by decide

/-- C9 counterexample: with the (reachable, unvalidated) budget −1 and
one current-month expense of $1, `get_budget_status` returns a record
(the budget is nonzero) whose `percentage` is 0, while
spent / budget × 100 = −100: the claimed percentage formula does not
hold for a negative budget, where the code's `if self.budget > 0`
guard yields 0. -/
theorem c9_counterexample :
    getBudgetStatus ⟨[⟨1, 100, false, "Food", "No description", 0, fl 1⟩], 100, -1⟩ 0
      = some ⟨-1, 1, -2, 0⟩ ∧
    (BudgetStatus.mk (-1) 1 (-2) 0).percentage
      ≠ (BudgetStatus.mk (-1) 1 (-2) 0).spent / (-1 : ℚ) * 100 := by decide

/-- A left fold of a conditional addition is the start value plus the
sum over the filtered, mapped list. -/
theorem foldl_if_add (p : Transaction → Bool) (g : Transaction → ℚ) :
    ∀ (ts : List Transaction) (acc : ℚ),
      ts.foldl (fun a t => if p t then a + g t else a) acc
        = acc + ((ts.filter p).map g).sum := by
  intro ts
  induction ts with
  | nil => intro acc; simp
  | cons t rest ih =>
    intro acc
    rw [List.foldl_cons, ih]
    by_cases hp : p t
    · simp only [hp, if_true, List.filter_cons, List.map_cons, List.sum_cons]
      ring
    · simp [List.filter_cons, hp]

/-- Variant of `foldl_if_add` for the expense-shaped conditional (skip
on income, add otherwise). -/
theorem foldl_if_add_exp (g : Transaction → ℚ) (ts : List Transaction) (acc : ℚ) :
    ts.foldl (fun a t => if t.isIncome then a else a + g t) acc
      = acc + ((ts.filter (fun t => !t.isIncome)).map g).sum := by
  have hfun : (fun (a : ℚ) (t : Transaction) => if t.isIncome then a else a + g t)
      = fun (a : ℚ) (t : Transaction) => if !t.isIncome then a + g t else a := by
    funext a t
    by_cases h : t.isIncome <;> simp [h]
  rw [hfun, foldl_if_add (fun t => !t.isIncome) g ts acc]

/-- The signed sum splits as income total minus expense total. -/
theorem signedSum_split (ts : List Transaction) :
    signedSum ts
      = ((ts.filter (fun t => t.isIncome)).map (fun t => (t.amountCents : ℚ) / 100)).sum
        - ((ts.filter (fun t => !t.isIncome)).map (fun t => (t.amountCents : ℚ) / 100)).sum := by
  induction ts with
  | nil => simp [signedSum]
  | cons t rest ih =>
    have e : signedSum (t :: rest) = signedAmount t + signedSum rest := by simp [signedSum]
    rw [e, ih]
    by_cases h : t.isIncome
    · simp only [signedAmount, h, if_true, List.filter_cons, Bool.not_true, List.map_cons,
        List.sum_cons]
      simp
      ring
    · simp only [signedAmount, h, List.filter_cons, List.map_cons, List.sum_cons]
      simp [h]
      ring

/-- C8 amended: the totals of `get_statistics` are exact `Decimal`
sums of the stored two-decimal amounts (income total, expense total,
and net = signed sum); the claim fails only for
`get_expense_by_category` and `get_monthly_data`, whose accumulations
run in binary64 floating point (see the counterexample). -/
theorem c8_amended (ts : List Transaction) :
    (getStatistics ts).totalIncome
      = ((ts.filter (fun t => t.isIncome)).map (fun t => (t.amountCents : ℚ) / 100)).sum ∧
    (getStatistics ts).totalExpenses
      = ((ts.filter (fun t => !t.isIncome)).map (fun t => (t.amountCents : ℚ) / 100)).sum ∧
    (getStatistics ts).netSavings = signedSum ts := by
  have h1 : (getStatistics ts).totalIncome
      = ts.foldl (fun acc t => if t.isIncome then acc + (t.amountCents : ℚ) / 100 else acc) 0 :=
    rfl
  have h2 : (getStatistics ts).totalExpenses
      = ts.foldl (fun acc t => if t.isIncome then acc else acc + (t.amountCents : ℚ) / 100) 0 :=
    rfl
  have h3 : (getStatistics ts).netSavings
      = (getStatistics ts).totalIncome - (getStatistics ts).totalExpenses := rfl
  have e1 : (getStatistics ts).totalIncome
      = ((ts.filter (fun t => t.isIncome)).map (fun t => (t.amountCents : ℚ) / 100)).sum := by
    rw [h1, foldl_if_add (fun t => t.isIncome) (fun t => (t.amountCents : ℚ) / 100) ts 0]
    ring
  have e2 : (getStatistics ts).totalExpenses
      = ((ts.filter (fun t => !t.isIncome)).map (fun t => (t.amountCents : ℚ) / 100)).sum := by
    rw [h2, foldl_if_add_exp (fun t => (t.amountCents : ℚ) / 100) ts 0]
    ring
  refine ⟨e1, e2, ?_⟩
  rw [h3, e1, e2, signedSum_split]

/-- One `monthUpsert` step changes the key list by `addNewKey`. -/
theorem monthUpsert_keys (acc : List (ℕ × ℚ × ℚ)) (m : ℕ) (b : Bool) (v : ℚ) :
    (monthUpsert acc m b v).map Prod.fst = addNewKey (acc.map Prod.fst) m := by
  induction acc with
  | nil => cases b <;> simp [monthUpsert, addNewKey]
  | cons kv rest ih =>
    obtain ⟨k, inc, exp⟩ := kv
    by_cases hk : k = m
    · subst hk
      cases b <;> simp [monthUpsert, addNewKey]
    · by_cases hm : m ∈ rest.map Prod.fst <;>
        simp [monthUpsert, hk, addNewKey, ih, hm, Ne.symm hk]

/-- Folding `addNewKey` keeps the key list duplicate-free and makes its
key set the union of the seen keys. -/
theorem foldl_addNewKey_spec :
    ∀ (l ks : List ℕ), ks.Nodup →
      (l.foldl addNewKey ks).Nodup ∧
      (l.foldl addNewKey ks).toFinset = ks.toFinset ∪ l.toFinset := by
  intro l
  induction l with
  | nil => intro ks h; simp [h]
  | cons m rest ih =>
    intro ks h
    rw [List.foldl_cons]
    have hnodup : (addNewKey ks m).Nodup := by
      rw [addNewKey]
      split_ifs with hm
      · exact h
      · simp [List.nodup_append, h, hm]
    have hfin : (addNewKey ks m).toFinset = insert m ks.toFinset := by
      rw [addNewKey]
      split_ifs with hm
      · rw [Finset.insert_eq_self.mpr (List.mem_toFinset.mpr hm)]
      · simp only [List.toFinset_append, List.toFinset_cons, List.toFinset_nil]
        rw [Finset.union_comm]
        simp [Finset.insert_eq]
    obtain ⟨n1, f1⟩ := ih (addNewKey ks m) hnodup
    refine ⟨n1, ?_⟩
    rw [f1, hfin, Finset.insert_union, List.toFinset_cons, Finset.union_insert]

/-- The key list of `buildMonthly` is the `addNewKey` fold over the
transaction months. -/
theorem buildMonthly_keys :
    ∀ (ts : List Transaction) (acc : List (ℕ × ℚ × ℚ)),
      (ts.foldl
        (fun acc t => monthUpsert acc t.month t.isIncome |fl ((t.amountCents : ℚ) / 100)|)
        acc).map Prod.fst
      = (ts.map (fun t => t.month)).foldl addNewKey (acc.map Prod.fst) := by
  intro ts
  induction ts with
  | nil => intro acc; simp
  | cons t rest ih =>
    intro acc
    rw [List.map_cons, List.foldl_cons, List.foldl_cons, ih, monthUpsert_keys]

/-- The dict `buildMonthly` has one entry per distinct month of the record set. -/
theorem buildMonthly_length (ts : List Transaction) :
    (buildMonthly ts).length = (ts.map (fun t => t.month)).dedup.length := by
  have h2 := buildMonthly_keys ts []
  have h3 := foldl_addNewKey_spec (ts.map (fun t => t.month)) [] (by simp)
  have hlen : (buildMonthly ts).length = ((buildMonthly ts).map Prod.fst).length := by
    rw [List.length_map]
  rw [hlen]
  show ((ts.foldl
      (fun acc t => monthUpsert acc t.month t.isIncome |fl ((t.amountCents : ℚ) / 100)|)
      []).map Prod.fst).length = _
  rw [h2]
  show ((ts.map (fun t => t.month)).foldl addNewKey ([] : List ℕ)).length = _
  rw [← List.toFinset_card_of_nodup h3.1, h3.2]
  simp [List.card_toFinset]

/-- The key set of `buildMonthly` is exactly the set of months carrying
a record. -/
theorem buildMonthly_keys_toFinset (ts : List Transaction) :
    ((buildMonthly ts).map Prod.fst).toFinset = (ts.map (fun t => t.month)).toFinset := by
  have h2 := buildMonthly_keys ts []
  have h3 := foldl_addNewKey_spec (ts.map (fun t => t.month)) [] (by simp)
  show ((ts.foldl
      (fun acc t => monthUpsert acc t.month t.isIncome |fl ((t.amountCents : ℚ) / 100)|)
      []).map Prod.fst).toFinset = _
  rw [h2]
  show ((ts.map (fun t => t.month)).foldl addNewKey ([] : List ℕ)).toFinset = _
  rw [h3.2]
  simp

/-- The key list of `buildMonthly` is duplicate-free (one dict entry
per month). -/
theorem buildMonthly_keys_nodup (ts : List Transaction) :
    ((buildMonthly ts).map Prod.fst).Nodup := by
  have h2 := buildMonthly_keys ts []
  have h3 := foldl_addNewKey_spec (ts.map (fun t => t.month)) [] (by simp)
  show ((ts.foldl
      (fun acc t => monthUpsert acc t.month t.isIncome |fl ((t.amountCents : ℚ) / 100)|)
      []).map Prod.fst).Nodup
  rw [h2]
  exact h3.1

/-- Sorting the dict keys of `buildMonthly` gives exactly the ascending
list of the distinct record months. -/
theorem buildMonthly_keys_sorted_eq (ts : List Transaction) :
    List.insertionSort (· ≤ ·) ((buildMonthly ts).map Prod.fst)
      = List.insertionSort (· ≤ ·) ((ts.map (fun t => t.month)).dedup) := by
  apply List.eq_of_perm_of_sorted ?_ (List.sorted_insertionSort _ _)
    (List.sorted_insertionSort _ _)
  exact (List.perm_insertionSort _ _).trans
    ((List.perm_of_nodup_nodup_toFinset_eq (buildMonthly_keys_nodup ts)
        (List.nodup_dedup _)
        (by rw [buildMonthly_keys_toFinset]; ext x; simp [List.mem_dedup])).trans
      (List.perm_insertionSort _ _).symm)

/-- C6 amended: with a window of `N > 0`, `get_monthly_data` returns
`min N k` period keys where `k` is the number of distinct months that
carry at least one record (all `k` months when `N = 0`, by Python's
`[-0:]` slice); the keys are pairwise distinct and in ascending order,
every returned key is a month of some record — months without records
never appear, with or without zero sums — and the key list is exactly
the final slice (`[-months:]`) of the ascending list of distinct record
months, i.e. the most recent `min N k` of them. -/
theorem c6_amended (ts : List Transaction) (months : ℕ) :
    (getMonthlyData ts months).length
      = (if months = 0 then (ts.map (fun t => t.month)).dedup.length
         else min months ((ts.map (fun t => t.month)).dedup.length)) ∧
    ((getMonthlyData ts months).map Prod.fst).Sorted (· ≤ ·) ∧
    (∀ m ∈ (getMonthlyData ts months).map Prod.fst, m ∈ ts.map (fun t => t.month)) ∧
    ((getMonthlyData ts months).map Prod.fst).Pairwise (· < ·) ∧
    (getMonthlyData ts months).map Prod.fst
      = pyLastSlice (List.insertionSort (· ≤ ·) ((ts.map (fun t => t.month)).dedup))
          months := by
  have hperm := List.perm_insertionSort (· ≤ ·) ((buildMonthly ts).map Prod.fst)
  have hsortlen := hperm.length_eq
  have hkeyslen : ((buildMonthly ts).map Prod.fst).length
      = (ts.map (fun t => t.month)).dedup.length := by
    rw [List.length_map]
    exact buildMonthly_length ts
  have hmapfst : (getMonthlyData ts months).map Prod.fst
      = pyLastSlice
          (List.insertionSort (· ≤ ·) ((buildMonthly ts).map Prod.fst)) months := by
    show ((pyLastSlice (List.insertionSort (· ≤ ·) ((buildMonthly ts).map Prod.fst))
        months).map (fun m => (m, ((buildMonthly ts).lookup m).getD (0, 0)))).map Prod.fst = _
    rw [List.map_map]
    have hid : (Prod.fst ∘ fun m : ℕ => (m, ((buildMonthly ts).lookup m).getD (0, 0))) = id :=
      rfl
    rw [hid, List.map_id]
  have hpair : (List.insertionSort (· ≤ ·) ((ts.map (fun t => t.month)).dedup)).Pairwise
      (· < ·) := by
    have hs := List.sorted_insertionSort (· ≤ ·) ((ts.map (fun t => t.month)).dedup)
    have hn : (List.insertionSort (· ≤ ·) ((ts.map (fun t => t.month)).dedup)).Nodup :=
      (List.perm_insertionSort _ _).nodup_iff.mpr (List.nodup_dedup _)
    exact List.Pairwise.imp (fun h => lt_of_le_of_ne h.1 h.2) (List.Pairwise.and hs hn)
  refine ⟨?_, ?_, ?_, ?_, ?_⟩
  · show ((pyLastSlice (List.insertionSort (· ≤ ·) ((buildMonthly ts).map Prod.fst))
        months).map (fun m => (m, ((buildMonthly ts).lookup m).getD (0, 0)))).length = _
    rw [List.length_map, pyLastSlice]
    split_ifs with h0
    · rw [hsortlen, hkeyslen]
    · rw [List.length_drop, hsortlen, hkeyslen]
      omega
  · rw [hmapfst, pyLastSlice]
    have hsorted := List.sorted_insertionSort (· ≤ ·)
      ((buildMonthly ts).map Prod.fst)
    split_ifs with h0
    · exact hsorted
    · exact List.Pairwise.sublist (List.drop_sublist _ _) hsorted
  · intro m hm
    rw [hmapfst] at hm
    have hm1 : m ∈ List.insertionSort (· ≤ ·) ((buildMonthly ts).map Prod.fst) := by
      rw [pyLastSlice] at hm
      split_ifs at hm with h0
      · exact hm
      · exact (List.drop_sublist _ _).subset hm
    have hm2 : m ∈ (buildMonthly ts).map Prod.fst := hperm.mem_iff.mp hm1
    have hm3 : m ∈ ((buildMonthly ts).map Prod.fst).toFinset := List.mem_toFinset.mpr hm2
    rw [buildMonthly_keys_toFinset] at hm3
    exact List.mem_toFinset.mp hm3
  · rw [hmapfst, buildMonthly_keys_sorted_eq, pyLastSlice]
    split_ifs with h0
    · exact hpair
    · exact List.Pairwise.sublist (List.drop_sublist _ _) hpair
  · rw [hmapfst, buildMonthly_keys_sorted_eq]

/-- Bound for `qflog`: a positive rational below `b^(c+1)` has floor
logarithm at most `c`. -/
theorem qflog_le (b : ℕ) (hb : 2 ≤ b) (q : ℚ) (c : ℕ) (hq : q < ((b : ℚ)) ^ (c + 1)) :
    qflog b q ≤ (c : ℤ) := by
  rw [qflog]
  split_ifs with h1
  · have h2 : ⌊q⌋ < (b : ℤ) ^ (c + 1) := by
      rw [Int.floor_lt]
      push_cast
      exact hq
    have h0 : (0 : ℤ) ≤ ⌊q⌋ := by
      rw [Int.le_floor]
      exact le_trans (by norm_num) h1
    have h4 : ⌊q⌋.toNat < b ^ (c + 1) := by
      have h5 : ((⌊q⌋.toNat : ℕ) : ℤ) < ((b ^ (c + 1) : ℕ) : ℤ) := by
        rw [Int.toNat_of_nonneg h0]
        push_cast
        exact h2
      exact_mod_cast h5
    exact_mod_cast natFlog_le b _ c hb h4
  · have h5 : (0 : ℤ) ≤ (natClog b ⌈q⁻¹⌉.toNat : ℤ) := Int.ofNat_nonneg _
    omega

/-- C9 amended: `get_budget_status` returns the none-value exactly when
the budget field is zero (the representation of "budget unset");
otherwise it returns the budget, the exact `Decimal` sum of the current
month's expenses, `remaining = budget − spent`, and `percent_used` equal
to spent/budget×100 computed in `Decimal`-context arithmetic and
converted to binary float — in particular exactly spent/budget×100
whenever that ratio is a natural number below 2⁵³ — except that for a
(reachable, unvalidated) negative budget the code's `if budget > 0`
guard reports 0 instead of the formula. -/
theorem c9_amended (s : WalletState) (mo : ℕ) :
    (getBudgetStatus s mo = none ↔ s.budget = 0) ∧
    (∀ st, getBudgetStatus s mo = some st →
      st.budget = s.budget ∧
      st.spent = ((s.transactions.filter (fun t => !t.isIncome && t.month == mo)).map
          (fun t => (t.amountCents : ℚ) / 100)).sum ∧
      st.remaining = s.budget - st.spent ∧
      (s.budget < 0 → st.percentage = 0) ∧
      (∀ k : ℕ, 0 < s.budget → st.spent * 100 = (k : ℚ) * s.budget → (k : ℚ) < 2 ^ 53 →
        st.percentage = (k : ℚ))) := by
  have hspent_eq : monthExpenses s.transactions mo
      = ((s.transactions.filter (fun t => !t.isIncome && t.month == mo)).map
          (fun t => (t.amountCents : ℚ) / 100)).sum := by
    rw [monthExpenses,
      foldl_if_add (fun t => !t.isIncome && t.month == mo)
        (fun t => (t.amountCents : ℚ) / 100) s.transactions 0]
    ring
  constructor
  · rw [getBudgetStatus]
    split_ifs with h0 <;> simp [h0]
  · intro st hst
    rw [getBudgetStatus] at hst
    by_cases h0 : s.budget = 0
    · rw [if_pos h0] at hst
      exact absurd hst (by simp)
    · rw [if_neg h0] at hst
      have hsto := (Option.some.inj hst).symm
      subst hsto
      refine ⟨rfl, hspent_eq, rfl, ?_, ?_⟩
      · intro hneg
        show fl (if 0 < s.budget then
          decMul28 (decDiv28 (monthExpenses s.transactions mo) s.budget) 100 else 0) = 0
        rw [if_neg (by linarith), fl, if_pos rfl]
      · intro k hpos hk hklt
        show fl (if 0 < s.budget then
          decMul28 (decDiv28 (monthExpenses s.transactions mo) s.budget) 100 else 0) = (k : ℚ)
        rw [if_pos hpos]
        have hb0 : s.budget ≠ 0 := ne_of_gt hpos
        have hspent : monthExpenses s.transactions mo / s.budget = (k : ℚ) / 100 := by
          rw [div_eq_div_iff hb0 (by norm_num : (100 : ℚ) ≠ 0)]
          linarith [hk]
        by_cases hk0 : k = 0
        · subst hk0
          have hz : monthExpenses s.transactions mo / s.budget = 0 := by
            rw [hspent]; norm_num
          rw [decDiv28, hz, roundSig28, if_pos rfl, decMul28, zero_mul, roundSig28,
            if_pos rfl, fl, if_pos rfl]
          norm_num
        · have hkpos : (0 : ℚ) < (k : ℚ) := by
            exact_mod_cast Nat.pos_of_ne_zero hk0
          have h1 : decDiv28 (monthExpenses s.transactions mo) s.budget = (k : ℚ) / 100 := by
            rw [decDiv28, hspent]
            apply roundSig28_eq_self _ (k : ℤ) (-2)
            · have h10 : ((10 : ℚ)) ^ (-2 : ℤ) = 1 / 100 := by norm_num
              push_cast
              rw [h10]
              ring
            · have habs : |(k : ℚ) / 100| = (k : ℚ) / 100 := abs_of_pos (by positivity)
              have hlog : qflog 10 ((k : ℚ) / 100) ≤ (25 : ℤ) := by
                apply qflog_le 10 (by norm_num) _ 25
                calc (k : ℚ) / 100 ≤ (k : ℚ) := div_le_self (by positivity) (by norm_num)
                  _ < 2 ^ 53 := hklt
                  _ < ((10 : ℚ)) ^ (25 + 1) := by norm_num
              rw [habs]
              omega
            · positivity
          have h2 : decMul28 ((k : ℚ) / 100) 100 = (k : ℚ) := by
            rw [decMul28, div_mul_cancel₀ _ (by norm_num : (100 : ℚ) ≠ 0)]
            apply roundSig28_eq_self _ (k : ℤ) 0
            · push_cast
              ring
            · have habs : |(k : ℚ)| = (k : ℚ) := abs_of_pos hkpos
              have hlog : qflog 10 (k : ℚ) ≤ (27 : ℤ) := by
                apply qflog_le 10 (by norm_num) _ 27
                calc (k : ℚ) < 2 ^ 53 := hklt
                  _ < ((10 : ℚ)) ^ (27 + 1) := by norm_num
              rw [habs]
              omega
            · exact ne_of_gt hkpos
          have h3 : fl (k : ℚ) = (k : ℚ) := by
            apply fl_eq_self _ (k : ℤ) 0
            · push_cast
              ring
            · have habs : |(k : ℚ)| = (k : ℚ) := abs_of_pos hkpos
              have hlog : qflog 2 (k : ℚ) ≤ (52 : ℤ) := by
                apply qflog_le 2 (by norm_num) _ 52
                calc (k : ℚ) < 2 ^ 53 := hklt
                  _ = ((2 : ℚ)) ^ (52 + 1) := by norm_num
              rw [habs]
              omega
            · exact ne_of_gt hkpos
          rw [h1, h2, h3]

/-- Witness for C9 (amended) at a concrete state: budget 200, one
current-month expense of $50 — the status is returned (budget nonzero)
and the reported percentage is exactly 25. -/
theorem c9_witness :
    (WalletState.mk [⟨1, 5000, false, "Food", "No description", 3, fl 50⟩] 100 200).budget ≠ 0 ∧
    (getBudgetStatus ⟨[⟨1, 5000, false, "Food", "No description", 3, fl 50⟩], 100, 200⟩ 3).map
        (fun st => st.percentage) = some 25 := by
  have h := c9_amended ⟨[⟨1, 5000, false, "Food", "No description", 3, fl 50⟩], 100, 200⟩ 3
  refine ⟨by decide, ?_⟩
  cases hopt : getBudgetStatus ⟨[⟨1, 5000, false, "Food", "No description", 3, fl 50⟩],
      100, 200⟩ 3 with
  | none => exact absurd (h.1.mp hopt) (by decide)
  | some st =>
    have hc := h.2 st hopt
    have hspent : st.spent = 50 := by
      rw [hc.2.1]
      decide
    have hpct : st.percentage = ((25 : ℕ) : ℚ) :=
      hc.2.2.2.2 25 (by decide) (by rw [hspent]; decide) (by decide)
    rw [Option.map_some', hpct]
    simp
